import Mathlib

/-!
Verification model of the Index-Page-Linker repository.

The repository is a TypeScript application that detects "table of contents" /
"index" entries on PDF pages via a vision model and writes clickable link
annotations back into the PDF.  This file gives a shallow embedding of the
pure logic of the three services (`geminiService.ts`, `pdfExportService.ts`,
`pdfImageService.ts`) and of the state handlers of the application component,
and proves the specified properties about them.

Strings are modelled as `List Char` (abbreviated `Str`), JavaScript numbers
that carry page indices and loop counters as `Nat`/`Int`, and coordinate
arithmetic as exact rational arithmetic over `ℚ`.  External collaborators
(the model endpoint, the PDF libraries, `Date.now`, `JSON.parse`) are either
oracle parameters or, for `JSON.parse`, a concrete executable JSON parser.
-/

/-- Strings are modelled as lists of characters. -/
abbrev Str := List Char

/-- JavaScript whitespace, as recognised by `String.prototype.trim` and the
regex class `\s` (the common code points; exotic Unicode space separators are
not needed by any claim). -/
def isJsWs (c : Char) : Bool :=
  c = ' ' || c = '\t' || c = '\n' || c = '\r' || c = '\x0b' || c = '\x0c'

/-- Decimal digit test used by the identifier-injectivity arguments. -/
def isDig (c : Char) : Bool := '0' ≤ c && c ≤ '9'

/-- The decimal digit character for `n < 10`. -/
def digitChar (n : Nat) : Char := Char.ofNat (48 + n)

/-- Decimal representation of a natural number, as produced by JavaScript
template interpolation of a non-negative integer. -/
def natRepr (n : Nat) : Str :=
  if h : n < 10 then [digitChar n]
  else natRepr (n / 10) ++ [digitChar (n % 10)]
  decreasing_by exact Nat.div_lt_self (by omega) (by omega)

/-- Decimal representation of an integer (possible leading minus sign). -/
def intRepr (n : Int) : Str :=
  if n < 0 then '-' :: natRepr n.natAbs else natRepr n.natAbs

/-- Reads a digit string back to the number it denotes. -/
def decVal (l : Str) : Nat :=
  l.foldl (fun a c => 10 * a + (c.toNat - 48)) 0

theorem decVal_append (l : Str) (c : Char) :
    decVal (l ++ [c]) = 10 * decVal l + (c.toNat - 48) := by
  simp [decVal, List.foldl_append]

theorem digitChar_toNat (n : Nat) (h : n < 10) : (digitChar n).toNat = 48 + n := by
  interval_cases n <;> decide

theorem decVal_natRepr (n : Nat) : decVal (natRepr n) = n := by
  induction n using Nat.strong_induction_on with
  | _ n ih =>
    rw [natRepr]
    by_cases h : n < 10
    · simp [h, decVal, digitChar_toNat n h]
    · rw [dif_neg h, decVal_append, ih (n / 10) (Nat.div_lt_self (by omega) (by omega)),
        digitChar_toNat (n % 10) (Nat.mod_lt _ (by omega))]
      omega

theorem natRepr_inj {m n : Nat} (h : natRepr m = natRepr n) : m = n := by
  have := decVal_natRepr m
  rw [h, decVal_natRepr] at this
  omega

theorem isDig_digitChar (n : Nat) (h : n < 10) : isDig (digitChar n) = true := by
  interval_cases n <;> decide

theorem natRepr_digits (n : Nat) : ∀ c ∈ natRepr n, isDig c = true := by
  induction n using Nat.strong_induction_on with
  | _ n ih =>
    rw [natRepr]
    by_cases h : n < 10
    · simp only [dif_pos h, List.mem_singleton]
      rintro c rfl; exact isDig_digitChar n h
    · simp only [dif_neg h, List.mem_append, List.mem_singleton]
      rintro c (hc | rfl)
      · exact ih (n / 10) (Nat.div_lt_self (by omega) (by omega)) c hc
      · exact isDig_digitChar (n % 10) (Nat.mod_lt _ (by omega))

theorem natRepr_ne_nil (n : Nat) : natRepr n ≠ [] := by
  rw [natRepr]
  by_cases h : n < 10 <;> simp [h]

/-- Heads of digit strings and separators never coincide. -/
theorem split_digits_aux {y : Char} (hy : isDig y = true) : y ≠ '-' := by
  intro h; rw [h] at hy; simp [isDig] at hy

/-- Splitting at a separator that cannot occur inside digit strings is
unambiguous. -/
theorem split_digits :
    ∀ (a b c d : Str), (∀ x ∈ a, isDig x = true) → (∀ x ∈ b, isDig x = true) →
      a ++ '-' :: c = b ++ '-' :: d → a = b ∧ c = d := by
  intro a
  induction a with
  | nil =>
    intro b c d _ hb h
    cases b with
    | nil => simpa using h
    | cons y ys =>
      simp only [List.nil_append, List.cons_append, List.cons.injEq] at h
      have : isDig y = true := hb y (List.mem_cons_self y ys)
      rw [← h.1] at this
      simp [isDig] at this
  | cons x xs ih =>
    intro b c d ha hb h
    cases b with
    | nil =>
      simp only [List.cons_append, List.nil_append, List.cons.injEq] at h
      have : isDig x = true := ha x (List.mem_cons_self x xs)
      rw [h.1] at this
      simp [isDig] at this
    | cons y ys =>
      simp only [List.cons_append, List.cons.injEq] at h
      obtain ⟨rfl, h2⟩ := h
      have := ih ys c d (fun z hz => ha z (List.mem_cons_of_mem _ hz))
        (fun z hz => hb z (List.mem_cons_of_mem _ hz)) h2
      exact ⟨by rw [this.1], this.2⟩

/-! ### Detected-entry identifiers

`geminiService.ts` builds each entry identifier by template interpolation:
`page-${pageNum}-link-${idx}-${Date.now()}`. -/

/-- The identifier string `page-{p}-link-{i}-{t}` produced for the entry at
index `i` of page `p` when `Date.now()` returned `t`. -/
def mkId (p : Int) (i t : Nat) : Str :=
  "page-".data ++ intRepr p ++ "-link-".data ++ natRepr i ++ '-' :: natRepr t

theorem intRepr_inj {p q : Int} (h : intRepr p ++ '-' :: a = intRepr q ++ '-' :: b) :
    p = q ∧ a = b := by
  unfold intRepr at h
  by_cases hp : p < 0 <;> by_cases hq : q < 0
  · rw [if_pos hp, if_pos hq] at h
    simp only [List.cons_append, List.cons.injEq] at h
    obtain ⟨abs_eq, rest⟩ := split_digits _ _ _ _ (natRepr_digits _) (natRepr_digits _) h.2
    exact ⟨by have := natRepr_inj abs_eq; omega, rest⟩
  · rw [if_pos hp, if_neg hq] at h
    simp only [List.cons_append] at h
    cases hnn : natRepr q.natAbs with
    | nil => exact absurd hnn (natRepr_ne_nil _)
    | cons y ys =>
      rw [hnn] at h
      simp only [List.cons_append, List.cons.injEq] at h
      have hy : isDig y = true := natRepr_digits q.natAbs y (by rw [hnn]; exact List.mem_cons_self _ _)
      exact absurd h.1.symm (split_digits_aux hy)
  · rw [if_neg hp, if_pos hq] at h
    simp only [List.cons_append] at h
    cases hnn : natRepr p.natAbs with
    | nil => exact absurd hnn (natRepr_ne_nil _)
    | cons y ys =>
      rw [hnn] at h
      simp only [List.cons_append, List.cons.injEq] at h
      have hy : isDig y = true := natRepr_digits p.natAbs y (by rw [hnn]; exact List.mem_cons_self _ _)
      exact absurd h.1 (split_digits_aux hy)
  · rw [if_neg hp, if_neg hq] at h
    obtain ⟨abs_eq, rest⟩ := split_digits _ _ _ _ (natRepr_digits _) (natRepr_digits _) h
    exact ⟨by have := natRepr_inj abs_eq; omega, rest⟩

/-- Identifiers built by the interpolation template are injective in the
page number, the entry index and the timestamp. -/
theorem mkId_inj {p q : Int} {i j s t : Nat} (h : mkId p i s = mkId q j t) :
    p = q ∧ i = j ∧ s = t := by
  unfold mkId at h
  rw [show "page-".data = ['p', 'a', 'g', 'e', '-'] from rfl,
    show "-link-".data = ['-', 'l', 'i', 'n', 'k', '-'] from rfl] at h
  simp only [List.cons_append, List.append_assoc, List.nil_append,
    List.cons.injEq, true_and] at h
  obtain ⟨rfl, h2⟩ := intRepr_inj h
  simp only [List.cons.injEq, true_and] at h2
  obtain ⟨hi, hs⟩ := split_digits _ _ _ _ (natRepr_digits _) (natRepr_digits _) h2
  exact ⟨rfl, natRepr_inj hi, natRepr_inj hs⟩

/-! ### JSON values and a model of `JSON.parse`

`geminiService.ts` parses model responses with the JavaScript built-in
`JSON.parse`.  The built-in is modelled by an executable recursive-descent
parser over `Str`.  JSON numbers are modelled as integers (the response
schemas of both detection calls constrain every numeric field to
`Type.INTEGER`); `\u` escapes are not needed by any claim and are rejected. -/

/-- A parsed JSON value. -/
inductive Json where
  | null
  | bool (b : Bool)
  | num (n : Int)
  | str (s : Str)
  | arr (xs : List Json)
  | obj (kvs : List (Str × Json))

/-- JSON insignificant whitespace (RFC 8259). -/
def isJsonWs (c : Char) : Bool := c = ' ' || c = '\t' || c = '\n' || c = '\r'

/-- Parses the body of a JSON string after the opening quote; returns the
decoded content and the remaining input after the closing quote. -/
def parseStringBody : Nat → Str → Option (Str × Str)
  | 0, _ => none
  | _, [] => none
  | fuel + 1, c :: rest =>
    if c = '"' then some ([], rest)
    else if c = '\\' then
      match rest with
      | [] => none
      | e :: rest2 =>
        let dec : Option Char :=
          if e = '"' then some '"' else if e = '\\' then some '\\'
          else if e = '/' then some '/' else if e = 'b' then some '\x08'
          else if e = 'f' then some '\x0c' else if e = 'n' then some '\n'
          else if e = 'r' then some '\r' else if e = 't' then some '\t'
          else none
        match dec with
        | none => none
        | some d =>
          match parseStringBody fuel rest2 with
          | some (content, rest3) => some (d :: content, rest3)
          | none => none
    else if c.toNat < 32 then none
    else
      match parseStringBody fuel rest with
      | some (content, rest3) => some (c :: content, rest3)
      | none => none

/-- Parses a run of decimal digits (rejecting redundant leading zeros, as
JSON does). -/
def parseDigits (s : Str) : Option (Nat × Str) :=
  let ds := s.takeWhile isDig
  if ds = [] then none
  else if 1 < ds.length ∧ ds.headI = '0' then none
  else some (decVal ds, s.dropWhile isDig)

/-- Parses a JSON integer (optional minus sign followed by digits). -/
def parseNumber (s : Str) : Option (Int × Str) :=
  match s with
  | '-' :: rest => (parseDigits rest).map (fun p => (-(p.1 : Int), p.2))
  | _ => (parseDigits s).map (fun p => ((p.1 : Int), p.2))

/-- Consumes an expected literal prefix. -/
def expectLit (lit s : Str) : Option Str :=
  if s.take lit.length = lit then some (s.drop lit.length) else none

mutual

/-- Parses one JSON value (leading whitespace allowed). -/
def parseVal : Nat → Str → Option (Json × Str)
  | 0, _ => none
  | fuel + 1, s0 =>
    match s0.dropWhile isJsonWs with
    | [] => none
    | c :: rest =>
      if c = 'n' then (expectLit "ull".data rest).map (fun r => (Json.null, r))
      else if c = 't' then (expectLit "rue".data rest).map (fun r => (Json.bool true, r))
      else if c = 'f' then (expectLit "alse".data rest).map (fun r => (Json.bool false, r))
      else if c = '"' then
        (parseStringBody fuel rest).map (fun p => (Json.str p.1, p.2))
      else if c = '[' then
        match rest.dropWhile isJsonWs with
        | ']' :: r => some (Json.arr [], r)
        | _ => (parseElems fuel rest).map (fun p => (Json.arr p.1, p.2))
      else if c = '{' then
        match rest.dropWhile isJsonWs with
        | '}' :: r => some (Json.obj [], r)
        | _ => (parseMembers fuel rest).map (fun p => (Json.obj p.1, p.2))
      else (parseNumber (c :: rest)).map (fun p => (Json.num p.1, p.2))

/-- Parses the comma-separated elements of a non-empty array, including the
closing bracket. -/
def parseElems : Nat → Str → Option (List Json × Str)
  | 0, _ => none
  | fuel + 1, s =>
    match parseVal fuel s with
    | none => none
    | some (v, r) =>
      match r.dropWhile isJsonWs with
      | ',' :: r2 =>
        match parseElems fuel r2 with
        | some (vs, r3) => some (v :: vs, r3)
        | none => none
      | ']' :: r2 => some ([v], r2)
      | _ => none

/-- Parses the comma-separated members of a non-empty object, including the
closing brace. -/
def parseMembers : Nat → Str → Option (List (Str × Json) × Str)
  | 0, _ => none
  | fuel + 1, s =>
    match s.dropWhile isJsonWs with
    | '"' :: r =>
      match parseStringBody fuel r with
      | none => none
      | some (key, r2) =>
        match r2.dropWhile isJsonWs with
        | ':' :: r3 =>
          match parseVal fuel r3 with
          | none => none
          | some (v, r4) =>
            match r4.dropWhile isJsonWs with
            | ',' :: r5 =>
              match parseMembers fuel r5 with
              | some (kvs, r6) => some ((key, v) :: kvs, r6)
              | none => none
            | '}' :: r5 => some ([(key, v)], r5)
            | _ => none
        | _ => none
    | _ => none

end

/-- Model of the JavaScript built-in `JSON.parse`: `none` models a thrown
`SyntaxError`. -/
def jsonParse (s : Str) : Option Json :=
  match parseVal (2 * s.length + 4) s with
  | some (v, r) => if r.dropWhile isJsonWs = [] then some v else none
  | none => none

/-! ### `parseResponseJSON` (geminiService.ts, lines 8-20)

The helper trims the response text, strips a leading markdown fence
(```` ``` ```` optionally followed by a case-insensitive `json` tag and
whitespace), strips a trailing run of whitespace followed by ```` ``` ````,
and hands the remainder to `JSON.parse`; `null` (here `none`) is returned
for missing text and parse failures. -/

/-- Model of `String.prototype.trim`. -/
def jsTrim (s : Str) : Str :=
  ((s.dropWhile isJsWs).reverse.dropWhile isJsWs).reverse

/-- Whether the string begins with a markdown fence, i.e. whether the regex
`/^```(?:json)?\s*/i` matches a non-empty prefix. -/
def startsWithFence (s : Str) : Bool := s.take 3 = "```".data

/-- Whether the string ends with a markdown fence, i.e. whether the regex
`/\s*```$/` matches. -/
def endsWithFence (s : Str) : Bool := s.reverse.take 3 = "```".data

/-- Model of `.replace(/^```(?:json)?\s*/i, "")`: after an opening fence the
greedy optional `json` tag (case-insensitive) and any following whitespace
are removed. -/
def stripLeadingFence (s : Str) : Str :=
  if startsWithFence s then
    let r := s.drop 3
    let r := if (r.take 4).map Char.toLower = "json".data then r.drop 4 else r
    r.dropWhile isJsWs
  else s

/-- Model of `.replace(/\s*```$/, "")`: the closing fence and the whitespace
run immediately before it are removed. -/
def stripTrailingFence (s : Str) : Str :=
  if endsWithFence s then ((s.reverse.drop 3).dropWhile isJsWs).reverse
  else s

/-- The `cleanText` value computed inside `parseResponseJSON`. -/
def cleanText (s : Str) : Str := stripTrailingFence (stripLeadingFence (jsTrim s))

/-- Model of `parseResponseJSON`.  `none` for the argument models the
JavaScript `undefined`; a `none` result models the JavaScript `null`
returned for falsy input or a `JSON.parse` failure. -/
def parseResponseJSON (text : Option Str) : Option Json :=
  match text with
  | none => none
  | some t => if t = [] then none else jsonParse (cleanText t)

/-- A payload wrapped in a ```` ```json ```` markdown fence. -/
def wrapJson (t : Str) : Str := "```json".data ++ '\n' :: (t ++ '\n' :: "```".data)

/-- A payload wrapped in a plain ```` ``` ```` markdown fence. -/
def wrapPlain (t : Str) : Str := "```".data ++ '\n' :: (t ++ '\n' :: "```".data)

theorem dropWhile_append_ne {p : Char → Bool} :
    ∀ (t s : Str), t.dropWhile p ≠ [] → (t ++ s).dropWhile p = t.dropWhile p ++ s := by
  intro t
  induction t with
  | nil => intro s h; simp [List.dropWhile] at h
  | cons c cs ih =>
    intro s h
    by_cases hc : p c
    · rw [List.cons_append, List.dropWhile_cons_of_pos hc,
        List.dropWhile_cons_of_pos hc]
      exact ih s (by rwa [List.dropWhile_cons_of_pos hc] at h)
    · rw [List.cons_append, List.dropWhile_cons_of_neg (by simpa using hc),
        List.dropWhile_cons_of_neg (by simpa using hc), List.cons_append]

theorem dropWhile_append_nil {p : Char → Bool} :
    ∀ (t s : Str), t.dropWhile p = [] → (t ++ s).dropWhile p = s.dropWhile p := by
  intro t
  induction t with
  | nil => intro s _; simp
  | cons c cs ih =>
    intro s h
    by_cases hc : p c
    · rw [List.dropWhile_cons_of_pos hc] at h
      rw [List.cons_append, List.dropWhile_cons_of_pos hc]
      exact ih s h
    · rw [List.dropWhile_cons_of_neg (by simpa using hc)] at h
      exact absurd h (List.cons_ne_nil c cs)

theorem jsTrim_self {s : Str} {c d : Char} {r q : Str} (hs : s = c :: r)
    (hc : isJsWs c = false) (hrev : s.reverse = d :: q) (hd : isJsWs d = false) :
    jsTrim s = s := by
  unfold jsTrim
  rw [hs, List.dropWhile_cons_of_neg (by simp [hc]), ← hs, hrev,
    List.dropWhile_cons_of_neg (by simp [hd]), ← hrev, List.reverse_reverse]

/-- After the leading fence of a wrapped payload is removed, the trailing
fence strips back to exactly the trimmed payload. -/
theorem stripTrail_aux (t : Str) :
    stripTrailingFence (List.dropWhile isJsWs ('\n' :: (t ++ ['\n', '`', '`', '`'])))
      = jsTrim t := by
  rw [List.dropWhile_cons_of_pos (by decide)]
  by_cases hdt : t.dropWhile isJsWs = []
  · rw [dropWhile_append_nil _ _ hdt]
    rw [show List.dropWhile isJsWs ['\n', '`', '`', '`'] = ['`', '`', '`'] from rfl]
    rw [show stripTrailingFence ['`', '`', '`'] = [] from rfl]
    unfold jsTrim
    rw [hdt]
    rfl
  · rw [dropWhile_append_ne _ _ hdt]
    unfold stripTrailingFence endsWithFence
    rw [show (List.dropWhile isJsWs t ++ ['\n', '`', '`', '`']).reverse
        = '`' :: '`' :: '`' :: '\n' :: (List.dropWhile isJsWs t).reverse from by
      simp [List.reverse_append]]
    rw [if_pos (by rfl)]
    rw [show ('`' :: '`' :: '`' :: '\n' :: (List.dropWhile isJsWs t).reverse).drop 3
        = '\n' :: (List.dropWhile isJsWs t).reverse from rfl]
    rw [List.dropWhile_cons_of_pos (by decide)]
    rfl

/-- Cleaning a payload wrapped in a ```` ```json ```` fence recovers the
trimmed payload. -/
theorem cleanText_wrapJson (t : Str) : cleanText (wrapJson t) = jsTrim t := by
  have hwrap : wrapJson t
      = '`' :: '`' :: '`' :: 'j' :: 's' :: 'o' :: 'n' :: '\n' :: (t ++ ['\n', '`', '`', '`']) := by
    simp [wrapJson]
  have hsplit : wrapJson t
      = ('`' :: '`' :: '`' :: 'j' :: 's' :: 'o' :: 'n' :: '\n' :: (t ++ ['\n', '`', '`'])) ++ ['`'] := by
    simp [wrapJson]
  have hrev : (wrapJson t).reverse
      = '`' :: ('`' :: '`' :: '`' :: 'j' :: 's' :: 'o' :: 'n' :: '\n' :: (t ++ ['\n', '`', '`'])).reverse := by
    rw [hsplit, List.reverse_append]
    rfl
  have htrim : jsTrim (wrapJson t) = wrapJson t :=
    jsTrim_self hwrap (by decide) hrev (by decide)
  unfold cleanText
  rw [htrim, hwrap]
  unfold stripLeadingFence startsWithFence
  rw [if_pos (by rfl)]
  simp only [List.drop_succ_cons, List.drop_zero, List.take_succ_cons, List.map_cons]
  rw [if_pos (by rfl)]
  exact stripTrail_aux t

/-- Cleaning a payload wrapped in a plain ```` ``` ```` fence recovers the
trimmed payload. -/
theorem cleanText_wrapPlain (t : Str) : cleanText (wrapPlain t) = jsTrim t := by
  have hwrap : wrapPlain t
      = '`' :: '`' :: '`' :: '\n' :: (t ++ ['\n', '`', '`', '`']) := by
    simp [wrapPlain]
  have hsplit : wrapPlain t
      = ('`' :: '`' :: '`' :: '\n' :: (t ++ ['\n', '`', '`'])) ++ ['`'] := by
    simp [wrapPlain]
  have hrev : (wrapPlain t).reverse
      = '`' :: ('`' :: '`' :: '`' :: '\n' :: (t ++ ['\n', '`', '`'])).reverse := by
    rw [hsplit, List.reverse_append]
    rfl
  have htrim : jsTrim (wrapPlain t) = wrapPlain t :=
    jsTrim_self hwrap (by decide) hrev (by decide)
  unfold cleanText
  rw [htrim, hwrap]
  unfold stripLeadingFence startsWithFence
  rw [if_pos (by rfl)]
  simp only [List.drop_succ_cons, List.drop_zero, List.take_succ_cons, List.map_cons]
  rw [if_neg (by
    intro h
    simp only [List.cons.injEq] at h
    exact absurd h.1 (by decide))]
  exact stripTrail_aux t

/-- When the trimmed payload itself carries no fence markers, cleaning is
just trimming. -/
theorem cleanText_noFence (t : Str) (h1 : startsWithFence (jsTrim t) = false)
    (h2 : endsWithFence (jsTrim t) = false) : cleanText t = jsTrim t := by
  have hL : stripLeadingFence (jsTrim t) = jsTrim t := by
    unfold stripLeadingFence
    rw [if_neg (by simp [h1])]
  have hT : stripTrailingFence (jsTrim t) = jsTrim t := by
    unfold stripTrailingFence
    rw [if_neg (by simp [h2])]
  unfold cleanText
  rw [hL, hT]

/-! ### Detection service (geminiService.ts)

`analyzePageForIndex` and `analyzePagesBatch` are modelled from the code
after the network call: the API key, the response (`.error` models a
network/model failure thrown by the SDK, `.ok` carries `response.text`,
with `none` for `undefined`) and the per-entry `Date.now()` readings are
parameters.  Numeric response fields follow the declared response schemas,
which constrain them to integers. -/

/-- JavaScript property access `j.k` on a parsed JSON value (`none` models
`undefined`; for duplicate keys the later member wins, as in `JSON.parse`). -/
def Json.getField (j : Json) (k : Str) : Option Json :=
  match j with
  | Json.obj kvs => (kvs.reverse.find? (fun kv => kv.1 = k)).map (fun kv => kv.2)
  | _ => none

/-- The bounding-box fields copied off one raw response entry (a field is
`none` when the entry lacks it). -/
structure RawBox where
  ymin : Option Json
  xmin : Option Json
  ymax : Option Json
  xmax : Option Json

/-- One entry as produced by the detection service's mapping step. -/
structure DetectedLink where
  id : Str
  label : Option Json
  targetPage : Option Json
  box : RawBox

/-- The `rawLinks.map((link, index) => ...)` step shared by both detection
calls: entry `index` of page `pageNumber` gets identifier
`page-{pageNumber}-link-{index}-{Date.now()}`, where `ts index` is the
`Date.now()` reading of that iteration. -/
def mapRawLinks (pageNumber : Int) (ts : Nat → Nat) (arr : List Json) :
    List DetectedLink :=
  arr.enum.map (fun ie =>
    { id := mkId pageNumber ie.1 (ts ie.1)
      label := ie.2.getField "label".data
      targetPage := ie.2.getField "targetPage".data
      box := ⟨ie.2.getField "ymin".data, ie.2.getField "xmin".data,
              ie.2.getField "ymax".data, ie.2.getField "xmax".data⟩ })

/-- Errors surfaced by the detection service. -/
inductive SvcError where
  | missingKey
  | network

/-- Model of `analyzePageForIndex` (geminiService.ts, lines 22-104). -/
def analyzePageForIndex (apiKey : Str) (resp : Except Unit (Option Str))
    (pageNumber : Nat) (ts : Nat → Nat) : Except SvcError (List DetectedLink) :=
  if apiKey = [] then .error .missingKey
  else
    match resp with
    | .error _ => .error .network
    | .ok text =>
      match parseResponseJSON text with
      | some (Json.arr a) => .ok (mapRawLinks pageNumber ts a)
      | _ => .ok []

/-- JavaScript object update `result[k] = v` on a `Record<number, _>`
modelled as an ordered association list with unique keys. -/
def recSet (m : List (Int × List DetectedLink)) (k : Int) (v : List DetectedLink) :
    List (Int × List DetectedLink) :=
  if k ∈ m.map Prod.fst then
    m.map (fun kv => if kv.1 = k then (k, v) else kv)
  else m ++ [(k, v)]

/-- One iteration of the `rawData.forEach` loop of `analyzePagesBatch`:
a response element with a truthy numeric `pageNumber` and an array
`entries` field stores that page's mapped entries under its page number;
any other element is skipped. -/
def batchAccum (ts : Int → Nat → Nat) (res : List (Int × List DetectedLink))
    (j : Json) : List (Int × List DetectedLink) :=
  match j.getField "pageNumber".data with
  | some (Json.num p) =>
    if p ≠ 0 then
      match j.getField "entries".data with
      | some (Json.arr entries) => recSet res p (mapRawLinks p (ts p) entries)
      | _ => res
    else res
  | _ => res

/-- Model of `analyzePagesBatch` (geminiService.ts, lines 106-211): the
response must be an array of `{pageNumber, entries}` objects; entries of an
element with falsy `pageNumber` or a non-array `entries` are skipped. -/
def analyzePagesBatch (apiKey : Str) (resp : Except Unit (Option Str))
    (ts : Int → Nat → Nat) : Except SvcError (List (Int × List DetectedLink)) :=
  if apiKey = [] then .error .missingKey
  else
    match resp with
    | .error _ => .error .network
    | .ok text =>
      match parseResponseJSON text with
      | some (Json.arr a) => .ok (a.foldl (batchAccum ts) [])
      | _ => .ok []

/-! ### Application state handlers (App.tsx)

The per-document analysis state `pageAnalyses : Record<number, IndexLink[]>`
is modelled as a function from page numbers to optional entry lists;
`setPageAnalyses(prev => ({...prev, [page]: links}))` is a pointwise
function update. -/

/-- The state update `{...prev, [p]: links}`. -/
def updateAnalyses (prev : Nat → Option (List DetectedLink)) (p : Nat)
    (links : List DetectedLink) : Nat → Option (List DetectedLink) :=
  fun q => if q = p then some links else prev q

/-- Model of `handleAnalyzePage`: on success the current page's entries are
replaced; on failure the state is left unchanged (an error banner is set). -/
def handleAnalyzePage (prev : Nat → Option (List DetectedLink)) (currentPage : Nat)
    (detect : Except SvcError (List DetectedLink)) : Nat → Option (List DetectedLink) :=
  match detect with
  | .ok links => updateAnalyses prev currentPage links
  | .error _ => prev

/-- One iteration of the `handleBatchScan` loop for page `p`: skip when the
page has no rendered image, update the state on success, and continue
unchanged when the per-page detection call throws. -/
def batchStep (detect : Nat → Str → Except SvcError (List DetectedLink))
    (images : Nat → Option Str) (s : Nat → Option (List DetectedLink)) (p : Nat) :
    Nat → Option (List DetectedLink) :=
  match images p with
  | none => s
  | some img =>
    match detect p img with
    | .ok links => updateAnalyses s p links
    | .error _ => s

/-- Model of the sequential page loop of `handleBatchScan` (App.tsx,
lines 69-88), with `detect` the per-page model call (which may throw) and
`images` the rasterization result. -/
def handleBatchScan (detect : Nat → Str → Except SvcError (List DetectedLink))
    (images : Nat → Option Str) (pagesToScan : List Nat)
    (s₀ : Nat → Option (List DetectedLink)) : Nat → Option (List DetectedLink) :=
  pagesToScan.foldl (batchStep detect images) s₀

/-! ### Page rasterization (pdfImageService.ts)

`getImagesForPages` is modelled with the document's page count and a render
oracle: `render p = none` models a per-page rendering failure (a rejected
`render` promise, caught and logged) or a missing canvas context, and
`render p = some img` a successful JPEG encoding.  The result `Map` is a
function from page numbers to optional images. -/

/-- One iteration of the `getImagesForPages` loop: skip out-of-bounds page
numbers, record the rendered image on success (`results.set`), keep the
accumulator unchanged on a render failure. -/
def imgStep (numPages : Nat) (render : Nat → Option Str)
    (results : Nat → Option Str) (pageNum : Nat) : Nat → Option Str :=
  if pageNum < 1 ∨ numPages < pageNum then results
  else
    match render pageNum with
    | some img => fun q => if q = pageNum then some img else results q
    | none => results

/-- Model of `getImagesForPages`. -/
def getImagesForPages (numPages : Nat) (render : Nat → Option Str)
    (pageNumbers : List Nat) : Nat → Option Str :=
  pageNumbers.foldl (imgStep numPages render) (fun _ => none)

/-! ### Annotation writer (pdfExportService.ts)

The PDF document is modelled as its page list; each page carries its size
and its optional annotation array.  Pre-existing annotations of arbitrary
kind are `PdfAnnot.other`; the exporter appends `PdfAnnot.link` objects
(clickable rectangle plus GoTo target page index).  The typed entry data
(`IndexLink` of types.ts) carries exact rational coordinates. -/

/-- A bounding box in the 0-1000 normalized image space (types.ts). -/
structure BoundingBox where
  ymin : ℚ
  xmin : ℚ
  ymax : ℚ
  xmax : ℚ

/-- A detected entry as consumed by the export stage (types.ts). -/
structure IndexLink where
  id : Str
  label : Str
  targetPage : Int
  box : BoundingBox

/-- An element of a page's annotation array. -/
inductive PdfAnnot where
  | link (rect : List ℚ) (targetIndex : Nat)
  | other (tag : Nat)

/-- A page: user-space size and optional `Annots` array. -/
structure PdfPage where
  width : ℚ
  height : ℚ
  annots : Option (List PdfAnnot)

/-- Placeholder page for the (never taken) out-of-bounds lookup. -/
def defaultPage : PdfPage := ⟨0, 0, none⟩

/-- The rectangle computed for one link in `exportModifiedPdf`
(pdfExportService.ts, lines 23-34), with the code's local names. -/
def computeRect (width height : ℚ) (box : BoundingBox) : List ℚ :=
  let xmin := box.xmin / 1000 * width
  let xmax := box.xmax / 1000 * width
  let ymin := height - box.ymax / 1000 * height
  let ymax := height - box.ymin / 1000 * height
  [xmin, ymin, xmax, ymax]

/-- The clickable rectangle `[x_left, y_bottom, x_right, y_top]` exactly as
the specification words it: `x_left = (xmin/1000)*W`,
`x_right = (xmax/1000)*W`, `y_bottom = H - (ymax/1000)*H`,
`y_top = H - (ymin/1000)*H`. -/
def specRect (W H : ℚ) (b : BoundingBox) : List ℚ :=
  [b.xmin / 1000 * W, H - b.ymax / 1000 * H, b.xmax / 1000 * W, H - b.ymin / 1000 * H]

/-- Processing of a single link of a valid page (pdfExportService.ts,
lines 22-68): compute the rectangle, skip the link when the 0-based target
page index is out of range, otherwise append a link annotation to the
page's annotation array, creating the array when absent. -/
def processLink (pages : List PdfPage) (pageIndex : Nat) (link : IndexLink) :
    List PdfPage :=
  let page := pages.getD pageIndex defaultPage
  let rect := computeRect page.width page.height link.box
  let targetPageIndex := link.targetPage - 1
  if 0 ≤ targetPageIndex ∧ targetPageIndex < (pages.length : Int) then
    pages.set pageIndex
      { page with
        annots := some (page.annots.getD [] ++ [PdfAnnot.link rect targetPageIndex.toNat]) }
  else pages

/-- Processing of one `[pageStr, links]` entry of the analyses record
(pdfExportService.ts, lines 12-19): pages outside the document are skipped
wholesale. -/
def processEntry (pages : List PdfPage) (entry : Int × List IndexLink) :
    List PdfPage :=
  let pageIndex := entry.1 - 1
  if pageIndex < 0 ∨ (pages.length : Int) ≤ pageIndex then pages
  else entry.2.foldl (fun d l => processLink d pageIndex.toNat l) pages

/-- Model of `exportModifiedPdf`: the loop over `Object.entries(analyses)`
(serialization to bytes is outside the model). -/
def exportModifiedPdf (pages : List PdfPage) (analyses : List (Int × List IndexLink)) :
    List PdfPage :=
  analyses.foldl processEntry pages

/-! ## Claims -/

/-- **C1**: for every detected entry placed on a page of width `W` and
height `H`, the clickable rectangle written by `exportModifiedPdf` is
exactly `[x_left, y_bottom, x_right, y_top]` with `x_left = (xmin/1000)*W`,
`x_right = (xmax/1000)*W`, `y_bottom = H - (ymax/1000)*H`,
`y_top = H - (ymin/1000)*H`; in particular the box
`{ymin:0, xmin:0, ymax:1000, xmax:1000}` maps to `[0, 0, W, H]`. -/
theorem C1_rect_formula :
    (∀ (W H : ℚ) (b : BoundingBox), computeRect W H b = specRect W H b)
    ∧ (∀ (W H : ℚ), computeRect W H ⟨0, 0, 1000, 1000⟩ = [0, 0, W, H])
    ∧ (∀ (pages : List PdfPage) (pageIndex : Nat) (link : IndexLink) (page : PdfPage),
        pages[pageIndex]? = some page →
        0 ≤ link.targetPage - 1 → link.targetPage - 1 < (pages.length : Int) →
        processLink pages pageIndex link = pages.set pageIndex
          { page with annots := some (page.annots.getD []
              ++ [PdfAnnot.link (specRect page.width page.height link.box)
                    (link.targetPage - 1).toNat]) }) := by
  refine ⟨fun W H b => rfl, fun W H => ?_, fun pages pageIndex link page hpage h1 h2 => ?_⟩
  · simp [computeRect]
  · unfold processLink
    rw [List.getD_eq_getElem?_getD, hpage]
    rw [if_pos ⟨h1, h2⟩]
    rfl

/-- Closed witness for C1 on a one-page 10 × 20 document and the full-page
box. -/
theorem C1_rect_formula_witness :
    processLink [⟨10, 20, none⟩] 0 ⟨[], [], 1, ⟨0, 0, 1000, 1000⟩⟩
      = [⟨10, 20, some [PdfAnnot.link (specRect 10 20 ⟨0, 0, 1000, 1000⟩) 0]⟩] :=
  C1_rect_formula.2.2 [⟨10, 20, none⟩] 0 ⟨[], [], 1, ⟨0, 0, 1000, 1000⟩⟩ ⟨10, 20, none⟩
    rfl (by decide) (by decide)

/-- **C2**: an entry whose `targetPage` is 0, negative or greater than the
page count adds no annotation (`processLink` is the identity), an analyses
entry whose page number is below 1 or above the page count is skipped
wholesale (`processEntry` is the identity), and both functions are total,
so the export completes without raising. -/
theorem C2_out_of_range_skipped :
    (∀ (pages : List PdfPage) (pageIndex : Nat) (link : IndexLink),
        link.targetPage ≤ 0 ∨ (pages.length : Int) < link.targetPage →
        processLink pages pageIndex link = pages)
    ∧ (∀ (pages : List PdfPage) (pageNum : Int) (links : List IndexLink),
        pageNum < 1 ∨ (pages.length : Int) < pageNum →
        processEntry pages (pageNum, links) = pages) := by
  constructor
  · intro pages pageIndex link h
    unfold processLink
    rw [if_neg (by omega)]
  · intro pages pageNum links h
    unfold processEntry
    rw [if_pos (by omega)]

/-- Closed witness for C2: a `targetPage` of 0 and a page number of 0 are
both skipped on a one-page document. -/
theorem C2_out_of_range_skipped_witness :
    processLink [⟨10, 20, none⟩] 0 ⟨[], [], 0, ⟨0, 0, 1000, 1000⟩⟩ = [⟨10, 20, none⟩]
    ∧ processEntry [⟨10, 20, none⟩] (0, [⟨[], [], 1, ⟨0, 0, 1000, 1000⟩⟩]) = [⟨10, 20, none⟩] :=
  ⟨C2_out_of_range_skipped.1 [⟨10, 20, none⟩] 0 ⟨[], [], 0, ⟨0, 0, 1000, 1000⟩⟩
      (Or.inl (by decide)),
   C2_out_of_range_skipped.2 [⟨10, 20, none⟩] 0 [⟨[], [], 1, ⟨0, 0, 1000, 1000⟩⟩]
      (Or.inl (by decide))⟩

/-- **C3**: processing one valid detected entry leaves the target page's
annotation array with the original annotations unchanged, in order, as a
prefix and the new link annotation appended at the end (so `n` becomes
`n + 1`); when the page had no annotation array, one is created holding
exactly the new annotation. -/
theorem C3_annots_appended :
    ∀ (pages : List PdfPage) (pageIndex : Nat) (link : IndexLink) (page : PdfPage),
      pages[pageIndex]? = some page →
      0 ≤ link.targetPage - 1 → link.targetPage - 1 < (pages.length : Int) →
      ∃ newPage, (processLink pages pageIndex link)[pageIndex]? = some newPage ∧
        (∀ old, page.annots = some old →
          ∃ newList, newPage.annots = some newList ∧
            newList.length = old.length + 1 ∧
            newList.take old.length = old ∧
            newList.drop old.length
              = [PdfAnnot.link (computeRect page.width page.height link.box)
                  (link.targetPage - 1).toNat]) ∧
        (page.annots = none →
          newPage.annots
            = some [PdfAnnot.link (computeRect page.width page.height link.box)
                (link.targetPage - 1).toNat]) := by
  intro pages pageIndex link page hpage h1 h2
  have hlt : pageIndex < pages.length := by
    rcases List.getElem?_eq_some.mp hpage with ⟨hl, _⟩
    exact hl
  unfold processLink
  rw [List.getD_eq_getElem?_getD, hpage]
  simp only [Option.getD_some]
  rw [if_pos ⟨h1, h2⟩]
  refine ⟨{ page with annots := some (page.annots.getD []
      ++ [PdfAnnot.link (computeRect page.width page.height link.box)
            (link.targetPage - 1).toNat]) },
    List.getElem?_set_eq_of_lt _ hlt, fun old hold => ?_, fun hnone => ?_⟩
  · refine ⟨old ++ [PdfAnnot.link (computeRect page.width page.height link.box)
        (link.targetPage - 1).toNat], by simp [hold], by simp, ?_, ?_⟩
    · simp
    · simp
  · simp [hnone]

/-- Closed witness for C3 on a page that already carries one annotation. -/
theorem C3_annots_appended_witness :
    ∃ newPage,
      (processLink [⟨10, 20, some [PdfAnnot.other 7]⟩] 0 ⟨[], [], 1, ⟨1, 2, 3, 4⟩⟩)[0]?
        = some newPage ∧
      (∀ old, (some [PdfAnnot.other 7] : Option (List PdfAnnot)) = some old →
        ∃ newList, newPage.annots = some newList ∧
          newList.length = old.length + 1 ∧
          newList.take old.length = old ∧
          newList.drop old.length = [PdfAnnot.link (computeRect 10 20 ⟨1, 2, 3, 4⟩) 0]) ∧
      ((some [PdfAnnot.other 7] : Option (List PdfAnnot)) = none →
        newPage.annots = some [PdfAnnot.link (computeRect 10 20 ⟨1, 2, 3, 4⟩) 0]) :=
  C3_annots_appended [⟨10, 20, some [PdfAnnot.other 7]⟩] 0 ⟨[], [], 1, ⟨1, 2, 3, 4⟩⟩
    ⟨10, 20, some [PdfAnnot.other 7]⟩ rfl (by decide) (by decide)

/-! ### Helper lemmas for the batch-scan and rasterization loops -/

theorem batchStep_frame (detect : Nat → Str → Except SvcError (List DetectedLink))
    (images : Nat → Option Str) (s : Nat → Option (List DetectedLink)) {p r : Nat}
    (h : r ≠ p) : batchStep detect images s p r = s r := by
  unfold batchStep
  rcases himg : images p with _ | img
  · simp only [himg]
  · rcases hdet : detect p img with e | links
    · simp only [himg, hdet]
    · simp only [himg, hdet, updateAnalyses]
      rw [if_neg h]

theorem batch_foldl_not_mem (detect : Nat → Str → Except SvcError (List DetectedLink))
    (images : Nat → Option Str) :
    ∀ (l : List Nat) (s : Nat → Option (List DetectedLink)) (p : Nat), p ∉ l →
      List.foldl (batchStep detect images) s l p = s p := by
  intro l
  induction l with
  | nil => intro s p _; rfl
  | cons q rest ih =>
    intro s p hp
    rw [List.foldl_cons, ih _ p (fun h => hp (List.mem_cons_of_mem _ h))]
    exact batchStep_frame detect images s (fun h => hp (h ▸ List.mem_cons_self q rest))

/-- **C4**: in the batch scan, a page with a rendered image gets exactly the
outcome of its own model call — its detected entries on success, its previous
(absent) state when the call throws — independently of failures on other
pages; pages without an image keep their previous state.  `handleBatchScan`
is a total function, so the batch completes without raising. -/
theorem C4_batch_single_failure :
    ∀ (detect : Nat → Str → Except SvcError (List DetectedLink))
      (images : Nat → Option Str) (pagesToScan : List Nat)
      (s₀ : Nat → Option (List DetectedLink)) (p : Nat),
      pagesToScan.Nodup → p ∈ pagesToScan →
      handleBatchScan detect images pagesToScan s₀ p
        = match images p with
          | none => s₀ p
          | some img =>
            match detect p img with
            | .ok links => some links
            | .error _ => s₀ p := by
  intro detect images pagesToScan
  induction pagesToScan with
  | nil => intro s₀ p _ hp; cases hp
  | cons q rest ih =>
    intro s₀ p hnd hp
    unfold handleBatchScan
    rw [List.foldl_cons]
    rcases List.mem_cons.mp hp with rfl | hmem
    · rw [batch_foldl_not_mem detect images rest _ p (List.nodup_cons.mp hnd).1]
      unfold batchStep
      rcases himg : images p with _ | img
      · simp only [himg]
      · rcases hdet : detect p img with e | links
        · simp only [himg, hdet]
        · simp [himg, hdet, updateAnalyses]
    · have hpq : p ≠ q := fun h => (List.nodup_cons.mp hnd).1 (h ▸ hmem)
      have := ih (batchStep detect images s₀ q) p (List.nodup_cons.mp hnd).2 hmem
      unfold handleBatchScan at this
      rw [this]
      simp only [batchStep_frame detect images s₀ hpq]

/-- Closed witness for C4: scanning pages 1, 2, 3 where the model call for
page 2 throws leaves results for pages 1 and 3 and no entry for page 2. -/
theorem C4_batch_single_failure_witness :
    handleBatchScan
        (fun p _ => if p = 2 then .error .network
          else .ok [⟨[], none, none, ⟨none, none, none, none⟩⟩])
        (fun _ => some ['i']) [1, 2, 3] (fun _ => none) 1
      = some [⟨[], none, none, ⟨none, none, none, none⟩⟩]
    ∧ handleBatchScan
        (fun p _ => if p = 2 then .error .network
          else .ok [⟨[], none, none, ⟨none, none, none, none⟩⟩])
        (fun _ => some ['i']) [1, 2, 3] (fun _ => none) 2
      = none
    ∧ handleBatchScan
        (fun p _ => if p = 2 then .error .network
          else .ok [⟨[], none, none, ⟨none, none, none, none⟩⟩])
        (fun _ => some ['i']) [1, 2, 3] (fun _ => none) 3
      = some [⟨[], none, none, ⟨none, none, none, none⟩⟩] :=
  ⟨(C4_batch_single_failure _ _ [1, 2, 3] _ 1 (by decide) (by decide)).trans rfl,
   (C4_batch_single_failure _ _ [1, 2, 3] _ 2 (by decide) (by decide)).trans rfl,
   (C4_batch_single_failure _ _ [1, 2, 3] _ 3 (by decide) (by decide)).trans rfl⟩

/-- **C8**: re-running detection on a page replaces that page's stored
entries wholesale — the new state at `currentPage` is exactly the newly
detected list, whatever was stored before — and the stored entries of every
other page number are unchanged. -/
theorem C8_replace_wholesale :
    ∀ (prev : Nat → Option (List DetectedLink)) (currentPage : Nat)
      (links : List DetectedLink),
      handleAnalyzePage prev currentPage (.ok links) currentPage = some links
      ∧ ∀ q, q ≠ currentPage → handleAnalyzePage prev currentPage (.ok links) q = prev q := by
  intro prev currentPage links
  constructor
  · simp [handleAnalyzePage, updateAnalyses]
  · intro q hq
    simp [handleAnalyzePage, updateAnalyses, hq]

/-- Closed witness for C8: page 1 already has (empty) results; re-analysis
stores exactly the new list and page 2's state is untouched. -/
theorem C8_replace_wholesale_witness :
    handleAnalyzePage (fun q => if q = 1 then some [] else none) 1
        (.ok [⟨[], none, none, ⟨none, none, none, none⟩⟩]) 1
      = some [⟨[], none, none, ⟨none, none, none, none⟩⟩]
    ∧ handleAnalyzePage (fun q => if q = 1 then some [] else none) 1
        (.ok [⟨[], none, none, ⟨none, none, none, none⟩⟩]) 2
      = (fun q => if q = 1 then some [] else none) 2 :=
  ⟨(C8_replace_wholesale (fun q => if q = 1 then some [] else none) 1
      [⟨[], none, none, ⟨none, none, none, none⟩⟩]).1,
   (C8_replace_wholesale (fun q => if q = 1 then some [] else none) 1
      [⟨[], none, none, ⟨none, none, none, none⟩⟩]).2 2 (by decide)⟩

/-! ### Helper lemmas for the rasterization loop -/

theorem imgStep_eval (numPages : Nat) (render : Nat → Option Str)
    (acc : Nat → Option Str) (q r : Nat) :
    imgStep numPages render acc q r
      = if r = q ∧ 1 ≤ q ∧ q ≤ numPages ∧ (render q).isSome then render q
        else acc r := by
  unfold imgStep
  by_cases hb : q < 1 ∨ numPages < q
  · rw [if_pos hb, if_neg (by rintro ⟨_, h1, h2, _⟩; omega)]
  · rw [if_neg hb]
    rcases hr : render q with _ | img
    · simp only [hr]
      rw [if_neg (by rintro ⟨_, _, _, hs⟩; exact absurd hs (by simp))]
    · simp only [hr]
      by_cases hrq : r = q
      · rw [if_pos hrq, if_pos ⟨hrq, by omega, by omega, rfl⟩]
      · rw [if_neg hrq, if_neg (fun hcon => hrq hcon.1)]

theorem getImages_foldl (numPages : Nat) (render : Nat → Option Str) :
    ∀ (l : List Nat) (acc : Nat → Option Str) (p : Nat),
      l.foldl (imgStep numPages render) acc p
        = if p ∈ l ∧ 1 ≤ p ∧ p ≤ numPages ∧ (render p).isSome then render p
          else acc p := by
  intro l
  induction l with
  | nil => intro acc p; simp
  | cons q rest ih =>
    intro acc p
    rw [List.foldl_cons, ih, imgStep_eval]
    by_cases h1 : p ∈ rest ∧ 1 ≤ p ∧ p ≤ numPages ∧ (render p).isSome
    · rw [if_pos h1, if_pos ⟨List.mem_cons_of_mem _ h1.1, h1.2⟩]
    · rw [if_neg h1]
      by_cases h2 : p = q ∧ 1 ≤ q ∧ q ≤ numPages ∧ (render q).isSome
      · obtain ⟨rfl, hq⟩ := h2
        rw [if_pos ⟨rfl, hq⟩, if_pos ⟨List.mem_cons_self _ _, hq⟩]
      · rw [if_neg h2]
        by_cases h3 : p ∈ q :: rest ∧ 1 ≤ p ∧ p ≤ numPages ∧ (render p).isSome
        · exfalso
          rcases List.mem_cons.mp h3.1 with rfl | hmem
          · exact h2 ⟨rfl, h3.2⟩
          · exact h1 ⟨hmem, h3.2⟩
        · rw [if_neg h3]

/-- **C5 (amended)**: for a requested in-bounds page number the result maps
the page to exactly the render outcome (its image when rendering succeeds,
no entry when rendering fails); for an out-of-bounds or unrequested page
number no entry is produced.  `getImagesForPages` is total, so no exception
escapes. -/
theorem C5_getImages_eval :
    ∀ (numPages : Nat) (render : Nat → Option Str) (pageNumbers : List Nat) (p : Nat),
      (p ∈ pageNumbers → 1 ≤ p → p ≤ numPages →
        getImagesForPages numPages render pageNumbers p = render p)
      ∧ (¬(p ∈ pageNumbers ∧ 1 ≤ p ∧ p ≤ numPages) →
        getImagesForPages numPages render pageNumbers p = none) := by
  intro numPages render pageNumbers p
  unfold getImagesForPages
  rw [getImages_foldl]
  constructor
  · intro hm h1 h2
    by_cases hs : (render p).isSome
    · rw [if_pos ⟨hm, h1, h2, hs⟩]
    · rw [if_neg (fun hcon => hs hcon.2.2.2)]
      rw [Option.not_isSome_iff_eq_none] at hs
      exact hs.symm
  · intro hcon
    rw [if_neg (fun h => hcon ⟨h.1, h.2.1, h.2.2.1⟩)]

/-- Closed witness for the amended C5: page 1 of a 2-page document renders
and appears in the mapping; page 5 is out of bounds and absent. -/
theorem C5_getImages_eval_witness :
    getImagesForPages 2 (fun p => if p = 1 then some ['x'] else none) [1, 2] 1 = some ['x']
    ∧ getImagesForPages 2 (fun p => if p = 1 then some ['x'] else none) [1, 2] 5 = none :=
  ⟨((C5_getImages_eval 2 (fun p => if p = 1 then some ['x'] else none) [1, 2] 1).1
      (by decide) (by decide) (by decide)).trans rfl,
   (C5_getImages_eval 2 (fun p => if p = 1 then some ['x'] else none) [1, 2] 5).2
      (by decide)⟩

/-- **C5 counterexample**: the claim as stated — every in-bounds requested
page yields an entry — fails when the page's rendering fails: with a
1-page document whose render oracle always fails, requested in-bounds
page 1 has no entry in the result (the loop catches the failure and omits
the page). -/
theorem C5_counterexample :
    ¬ (∀ (numPages : Nat) (render : Nat → Option Str) (pageNumbers : List Nat) (p : Nat),
        p ∈ pageNumbers → 1 ≤ p → p ≤ numPages →
        ∃ img, getImagesForPages numPages render pageNumbers p = some img) := by
  intro h
  obtain ⟨img, himg⟩ := h 1 (fun _ => none) [1] 1 (by decide) (by decide) (by decide)
  rw [show getImagesForPages 1 (fun _ => none) [1] 1 = none from rfl] at himg
  exact Option.noConfusion himg

/-- **C6 (amended)**: for every payload whose trimmed text does not itself
begin or end with a ```` ``` ```` fence marker, parsing the payload wrapped
in a markdown code fence (```` ```json ```` or plain ```` ``` ````) yields
the same structured result as parsing the unwrapped payload. -/
theorem C6_fence_equiv :
    ∀ t : Str, startsWithFence (jsTrim t) = false → endsWithFence (jsTrim t) = false →
      parseResponseJSON (some (wrapJson t)) = parseResponseJSON (some t)
      ∧ parseResponseJSON (some (wrapPlain t)) = parseResponseJSON (some t) := by
  intro t h1 h2
  have hclean : cleanText t = jsTrim t := cleanText_noFence t h1 h2
  have hwj : ¬ wrapJson t = [] := by simp [wrapJson]
  have hwp : ¬ wrapPlain t = [] := by simp [wrapPlain]
  by_cases ht : t = []
  · subst ht
    constructor
    · show (if wrapJson [] = [] then none else jsonParse (cleanText (wrapJson []))) = _
      rw [if_neg hwj, cleanText_wrapJson]
      rfl
    · show (if wrapPlain [] = [] then none else jsonParse (cleanText (wrapPlain []))) = _
      rw [if_neg hwp, cleanText_wrapPlain]
      rfl
  · constructor
    · show (if wrapJson t = [] then none else jsonParse (cleanText (wrapJson t)))
        = (if t = [] then none else jsonParse (cleanText t))
      rw [if_neg hwj, if_neg ht, cleanText_wrapJson, hclean]
    · show (if wrapPlain t = [] then none else jsonParse (cleanText (wrapPlain t)))
        = (if t = [] then none else jsonParse (cleanText t))
      rw [if_neg hwp, if_neg ht, cleanText_wrapPlain, hclean]

/-- Closed witness for the amended C6 on the payload `[1]`. -/
theorem C6_fence_equiv_witness :
    parseResponseJSON (some (wrapJson "[1]".data)) = parseResponseJSON (some "[1]".data)
    ∧ parseResponseJSON (some (wrapPlain "[1]".data)) = parseResponseJSON (some "[1]".data) :=
  C6_fence_equiv "[1]".data (by decide) (by decide)

/-- **C6 counterexample**: for the payload ```` ```[1] ```` the claim as
stated fails — the unwrapped payload has its own leading fence stripped and
parses to `[1]`, while in the wrapped payload only the outer fence is
stripped and parsing fails. -/
theorem C6_counterexample :
    parseResponseJSON (some (wrapJson "```[1]".data))
      ≠ parseResponseJSON (some "```[1]".data) := by
  intro h
  rw [show parseResponseJSON (some (wrapJson "```[1]".data)) = none from rfl,
    show parseResponseJSON (some "```[1]".data) = some (Json.arr [Json.num 1]) from rfl] at h
  exact Option.noConfusion h

/-- **C7**: a response text that is `undefined`, empty, or fails JSON
parsing after fence stripping makes `analyzePageForIndex` return the empty
entry list (`.ok []`), not a propagated parse error. -/
theorem C7_parse_failure_empty :
    ∀ (apiKey : Str) (text : Option Str) (pageNumber : Nat) (ts : Nat → Nat),
      apiKey ≠ [] →
      (text = none ∨ text = some []
        ∨ ∃ t, text = some t ∧ jsonParse (cleanText t) = none) →
      analyzePageForIndex apiKey (.ok text) pageNumber ts = .ok [] := by
  intro apiKey text p ts hk hcase
  unfold analyzePageForIndex
  rw [if_neg hk]
  rcases hcase with rfl | rfl | ⟨t, rfl, hp⟩
  · rfl
  · rfl
  · have hnone : parseResponseJSON (some t) = none := by
      show (if t = [] then none else jsonParse (cleanText t)) = none
      by_cases ht : t = []
      · rw [if_pos ht]
      · rw [if_neg ht, hp]
    simp only [hnone]

/-- Closed witness for C7 on the unparsable response `not json`. -/
theorem C7_parse_failure_empty_witness :
    analyzePageForIndex ['k'] (.ok (some "not json".data)) 1 (fun _ => 0) = .ok [] :=
  C7_parse_failure_empty ['k'] (some "not json".data) 1 (fun _ => 0) (by decide)
    (Or.inr (Or.inr ⟨"not json".data, rfl, rfl⟩))

/-- **C10**: a response that parses to a JSON value that is not an array
(object, number, string, boolean or null) makes `analyzePageForIndex`
return the empty entry list, the same result as a parse failure. -/
theorem C10_non_array_empty :
    ∀ (apiKey : Str) (text : Option Str) (pageNumber : Nat) (ts : Nat → Nat) (j : Json),
      apiKey ≠ [] → parseResponseJSON text = some j → (∀ a, j ≠ Json.arr a) →
      analyzePageForIndex apiKey (.ok text) pageNumber ts = .ok [] := by
  intro apiKey text p ts j hk hp hna
  unfold analyzePageForIndex
  rw [if_neg hk]
  cases j with
  | null => simp only [hp]
  | bool b => simp only [hp]
  | num n => simp only [hp]
  | str s => simp only [hp]
  | arr a => exact absurd rfl (hna a)
  | obj kvs => simp only [hp]

/-- Closed witness for C10 on the non-array response `5`. -/
theorem C10_non_array_empty_witness :
    analyzePageForIndex ['k'] (.ok (some "5".data)) 1 (fun _ => 0) = .ok [] :=
  C10_non_array_empty ['k'] (some "5".data) 1 (fun _ => 0) (Json.num 5) (by decide) rfl
    (fun a h => Json.noConfusion h)

/-! ### Helper lemmas for identifier uniqueness (C9) -/

theorem ids_mapRawLinks (p : Int) (ts : Nat → Nat) (arr : List Json) :
    (mapRawLinks p ts arr).map (fun l => l.id)
      = (List.range arr.length).map (fun i => mkId p i (ts i)) := by
  unfold mapRawLinks
  rw [List.map_map, ← List.enum_map_fst arr, List.map_map]
  rfl

theorem mem_ids_mapRawLinks {x : Str} {p : Int} {ts : Nat → Nat} {arr : List Json}
    (hx : x ∈ (mapRawLinks p ts arr).map (fun l => l.id)) :
    ∃ i, x = mkId p i (ts i) := by
  rw [ids_mapRawLinks] at hx
  obtain ⟨i, _, rfl⟩ := List.mem_map.mp hx
  exact ⟨i, rfl⟩

theorem pairwise_ids_mapRawLinks (p : Int) (ts : Nat → Nat) (arr : List Json) :
    ((mapRawLinks p ts arr).map (fun l => l.id)).Pairwise (· ≠ ·) := by
  rw [ids_mapRawLinks]
  refine (List.pairwise_lt_range _).map _ ?_
  intro i j hij heq
  obtain ⟨_, hij2, _⟩ := mkId_inj heq
  omega

/-- All identifiers of all pages of a batch result, in order. -/
def allIds (res : List (Int × List DetectedLink)) : List Str :=
  (res.map (fun pr => pr.2.map (fun l => l.id))).flatten

/-- Invariant of the accumulated batch record: page keys are distinct and
each page's list is a `mapRawLinks` image for its own key. -/
def BatchInv (res : List (Int × List DetectedLink)) : Prop :=
  (res.map Prod.fst).Pairwise (· ≠ ·)
  ∧ ∀ pr ∈ res, ∃ tsf arr, pr.2 = mapRawLinks pr.1 tsf arr

theorem recSet_inv {res : List (Int × List DetectedLink)} (hinv : BatchInv res)
    (k : Int) (tsf : Nat → Nat) (arr : List Json) :
    BatchInv (recSet res k (mapRawLinks k tsf arr)) := by
  unfold recSet
  by_cases hk : k ∈ res.map Prod.fst
  · rw [if_pos hk]
    constructor
    · have hfst : (res.map (fun kv => if kv.1 = k then (k, mapRawLinks k tsf arr) else kv)).map
          Prod.fst = res.map Prod.fst := by
        rw [List.map_map]
        refine List.map_congr_left ?_
        intro kv _
        by_cases h : kv.1 = k
        · simp [h]
        · simp [h]
      rw [hfst]
      exact hinv.1
    · intro pr hpr
      obtain ⟨kv, hkv, rfl⟩ := List.mem_map.mp hpr
      by_cases h : kv.1 = k
      · rw [if_pos h]
        exact ⟨tsf, arr, rfl⟩
      · rw [if_neg h]
        exact hinv.2 kv hkv
  · rw [if_neg hk]
    constructor
    · rw [List.map_append, List.pairwise_append]
      refine ⟨hinv.1, List.pairwise_singleton _ _, ?_⟩
      intro x hx y hy
      simp only [List.map_cons, List.map_nil, List.mem_singleton] at hy
      subst hy
      exact fun heq => hk (heq ▸ hx)
    · intro pr hpr
      rcases List.mem_append.mp hpr with h | h
      · exact hinv.2 pr h
      · simp only [List.mem_singleton] at h
        subst h
        exact ⟨tsf, arr, rfl⟩

theorem batchAccum_inv (ts : Int → Nat → Nat) {res : List (Int × List DetectedLink)}
    (hinv : BatchInv res) (j : Json) : BatchInv (batchAccum ts res j) := by
  unfold batchAccum
  rcases hp : j.getField "pageNumber".data with _ | jp
  · simpa only [hp] using hinv
  · cases jp with
    | num p =>
      simp only [hp]
      by_cases hz : p ≠ 0
      · rw [if_pos hz]
        rcases he : j.getField "entries".data with _ | je
        · simpa only [he] using hinv
        · cases je with
          | arr entries =>
            simp only [he]
            exact recSet_inv hinv p (ts p) entries
          | null => simpa only [he] using hinv
          | bool b => simpa only [he] using hinv
          | num n => simpa only [he] using hinv
          | str s => simpa only [he] using hinv
          | obj kvs => simpa only [he] using hinv
      · rw [if_neg hz]
        exact hinv
    | null => simpa only [hp] using hinv
    | bool b => simpa only [hp] using hinv
    | str s => simpa only [hp] using hinv
    | arr a => simpa only [hp] using hinv
    | obj kvs => simpa only [hp] using hinv

theorem batch_foldl_inv (ts : Int → Nat → Nat) :
    ∀ (a : List Json) (res : List (Int × List DetectedLink)),
      BatchInv res → BatchInv (a.foldl (batchAccum ts) res) := by
  intro a
  induction a with
  | nil => intro res h; exact h
  | cons j rest ih =>
    intro res h
    rw [List.foldl_cons]
    exact ih _ (batchAccum_inv ts h j)

theorem allIds_pairwise {res : List (Int × List DetectedLink)} (hinv : BatchInv res) :
    (allIds res).Pairwise (· ≠ ·) := by
  unfold allIds
  rw [List.pairwise_flatten]
  constructor
  · intro l hl
    obtain ⟨pr, hpr, rfl⟩ := List.mem_map.mp hl
    obtain ⟨tsf, arr, h2⟩ := hinv.2 pr hpr
    rw [h2]
    exact pairwise_ids_mapRawLinks pr.1 tsf arr
  · rw [List.pairwise_map]
    have hkeys : res.Pairwise (fun a b => a.1 ≠ b.1) := List.pairwise_map.mp hinv.1
    refine hkeys.imp_of_mem ?_
    intro pr pr' hpr hpr' hne x hx y hy
    obtain ⟨tsf, arr, h2⟩ := hinv.2 pr hpr
    obtain ⟨tsf', arr', h2'⟩ := hinv.2 pr' hpr'
    rw [h2] at hx
    rw [h2'] at hy
    obtain ⟨i, rfl⟩ := mem_ids_mapRawLinks hx
    obtain ⟨i', rfl⟩ := mem_ids_mapRawLinks hy
    intro heq
    exact hne (mkId_inj heq).1

/-- **C9**: within one detection run every produced entry carries a distinct
identifier: for `analyzePageForIndex` across the entries of the returned
list, and for `analyzePagesBatch` across all entries of all pages of the
returned mapping. -/
theorem C9_unique_ids :
    (∀ (apiKey : Str) (resp : Except Unit (Option Str)) (pageNumber : Nat)
        (ts : Nat → Nat) (links : List DetectedLink),
        analyzePageForIndex apiKey resp pageNumber ts = .ok links →
        (links.map (fun l => l.id)).Pairwise (· ≠ ·))
    ∧ (∀ (apiKey : Str) (resp : Except Unit (Option Str)) (ts : Int → Nat → Nat)
        (res : List (Int × List DetectedLink)),
        analyzePagesBatch apiKey resp ts = .ok res →
        (allIds res).Pairwise (· ≠ ·)) := by
  constructor
  · intro apiKey resp pageNumber ts links h
    unfold analyzePageForIndex at h
    by_cases hk : apiKey = []
    · rw [if_pos hk] at h
      exact absurd h (by simp)
    · rw [if_neg hk] at h
      rcases resp with e | text
      · exact absurd h (by simp)
      · rcases hp : parseResponseJSON text with _ | j
        · simp only [hp, Except.ok.injEq] at h
          subst h
          simp
        · cases j with
          | arr a =>
            simp only [hp, Except.ok.injEq] at h
            subst h
            exact pairwise_ids_mapRawLinks _ ts a
          | null => simp only [hp, Except.ok.injEq] at h; subst h; simp
          | bool b => simp only [hp, Except.ok.injEq] at h; subst h; simp
          | num n => simp only [hp, Except.ok.injEq] at h; subst h; simp
          | str s => simp only [hp, Except.ok.injEq] at h; subst h; simp
          | obj kvs => simp only [hp, Except.ok.injEq] at h; subst h; simp
  · intro apiKey resp ts res h
    unfold analyzePagesBatch at h
    by_cases hk : apiKey = []
    · rw [if_pos hk] at h
      exact absurd h (by simp)
    · rw [if_neg hk] at h
      rcases resp with e | text
      · exact absurd h (by simp)
      · have hempty : BatchInv ([] : List (Int × List DetectedLink)) :=
          ⟨List.Pairwise.nil, by simp⟩
        rcases hp : parseResponseJSON text with _ | j
        · simp only [hp, Except.ok.injEq] at h
          subst h
          exact allIds_pairwise hempty
        · cases j with
          | arr a =>
            simp only [hp, Except.ok.injEq] at h
            subst h
            exact allIds_pairwise (batch_foldl_inv ts a [] hempty)
          | null =>
            simp only [hp, Except.ok.injEq] at h; subst h; exact allIds_pairwise hempty
          | bool b =>
            simp only [hp, Except.ok.injEq] at h; subst h; exact allIds_pairwise hempty
          | num n =>
            simp only [hp, Except.ok.injEq] at h; subst h; exact allIds_pairwise hempty
          | str s =>
            simp only [hp, Except.ok.injEq] at h; subst h; exact allIds_pairwise hempty
          | obj kvs =>
            simp only [hp, Except.ok.injEq] at h; subst h; exact allIds_pairwise hempty

/-- Closed witness for C9: a single-page run returning two entries and a
batch run over two pages each yield pairwise-distinct identifiers. -/
theorem C9_unique_ids_witness :
    ((mapRawLinks 3 (fun _ => 7) [Json.num 1, Json.num 2]).map
        (fun l => l.id)).Pairwise (· ≠ ·)
    ∧ (allIds [(1, mapRawLinks 1 (fun _ => 7) [Json.num 1]),
        (2, mapRawLinks 2 (fun _ => 7) [Json.num 1])]).Pairwise (· ≠ ·) :=
  ⟨C9_unique_ids.1 ['k'] (.ok (some "[1,2]".data)) 3 (fun _ => 7)
      (mapRawLinks 3 (fun _ => 7) [Json.num 1, Json.num 2]) rfl,
   C9_unique_ids.2 ['k']
      (.ok (some "[\x7b\"pageNumber\":1,\"entries\":[1]\x7d,\x7b\"pageNumber\":2,\"entries\":[1]\x7d]".data))
      (fun _ _ => 7)
      [(1, mapRawLinks 1 (fun _ => 7) [Json.num 1]),
       (2, mapRawLinks 2 (fun _ => 7) [Json.num 1])] rfl⟩
